import Mathlib

/-!
Verification of the WorldSocket connection protocol engine (framing, header
cryptography, inbound reassembly, outbound coalescing, authentication state
machine, ping flood guard).

The repository ships only the class declaration (`src/src/game/WorldSocket.h`);
the method bodies (`ProcessIncomingData`, `HandleAuthSession`, `HandlePing`,
`SendPacket`) and the `AuthCrypt` implementation are not under `src/`, so the
operational definitions below are modelled from the specification, while the
data layout (`ClientPktHeader`, the 64K output buffer plus pending queue, the
connection fields, `FinalizeSession`) follows the header file.
-/

/-! ## FrameCodec: wire header layout.

`ClientPktHeader` is taken from the source (`WorldSocket.h`, packed struct of a
16-bit `size` followed by a 32-bit `cmd`).  Bytes are modelled as `Nat` values
below 256; multi-byte fields are little-endian per the spec. -/

/-- The inbound wire header: 16-bit payload length, 32-bit message type
(packed struct from `WorldSocket.h`). -/
structure ClientPktHeader where
  size : Nat
  cmd : Nat
  deriving Repr, DecidableEq

/-- Size in bytes of the packed `ClientPktHeader` (uint16 + uint32). -/
def headerSize : Nat := 6

/-- Modelled from the spec: the configured maximum frame size constant against
which a claimed payload length is validated. -/
def maxFrameSize : Nat := 10240

namespace FrameCodec

/-- Modelled from the spec: `decode(headerBytes) -> (payloadLength, messageType)`
parses the fixed-size little-endian header (the decode routine lives in the
missing `WorldSocket.cpp`; the layout is the source's `ClientPktHeader`). -/
def decode (bytes : List Nat) : ClientPktHeader :=
  { size := bytes.getD 0 0 + 256 * bytes.getD 1 0
    cmd := bytes.getD 2 0 + 256 * bytes.getD 3 0 + 65536 * bytes.getD 4 0
             + 16777216 * bytes.getD 5 0 }

/-- Modelled from the spec: serialise a `ClientPktHeader` to its six
little-endian bytes. -/
def encodeHeader (h : ClientPktHeader) : List Nat :=
  [h.size % 256, h.size / 256 % 256,
   h.cmd % 256, h.cmd / 256 % 256, h.cmd / 65536 % 256, h.cmd / 16777216 % 256]

/-- Modelled from the spec: `encode(messageType, payload)` prepends the
fixed-size header (payload length, message type) to the payload. -/
def encode (messageType : Nat) (payload : List Nat) : List Nat :=
  encodeHeader { size := payload.length, cmd := messageType } ++ payload

end FrameCodec

/-! ## HeaderCipher (`AuthCrypt`).

Modelled from the spec: `AuthCrypt.cpp` is not under `src/`.  The spec
describes a keyed, stateful stream transform applied byte-for-byte to the
header region only, with two independent directional running states derived
from the shared secret, each advancing once per header byte processed.  We
model each directional state as the key bytes plus a running key index and a
feedback byte (the previously produced cipher byte), so that conflating the
two directions desyncs the stream, as the spec warns. -/

namespace AuthCrypt

/-- One directional cipher running state: key bytes, running key index, and
the last cipher byte seen on this direction (0 initially). -/
structure DirState where
  key : List Nat
  idx : Nat
  last : Nat
  deriving Repr, DecidableEq

/-- Modelled from the spec: a fresh directional state derived from the shared
secret. -/
def initState (secret : List Nat) : DirState :=
  { key := secret, idx := 0, last := 0 }

/-- Modelled from the spec: cipher initialization from the shared secret
derives two independent running states, one for encrypting outbound headers,
one for decrypting inbound headers. -/
def initCipher (secret : List Nat) : DirState × DirState :=
  (initState secret, initState secret)

/-- Encrypt one header byte: XOR with the current key byte, add the feedback
byte, reduce mod 256; the cipher byte becomes the new feedback byte. -/
def encryptByte (st : DirState) (b : Nat) : Nat × DirState :=
  let i := st.idx % st.key.length
  let k := st.key.getD i 0
  let x := ((b ^^^ k) + st.last) % 256
  (x, { key := st.key, idx := i + 1, last := x })

/-- Decrypt one header byte: subtract the feedback byte mod 256, XOR with the
current key byte; the received cipher byte becomes the new feedback byte. -/
def decryptByte (st : DirState) (b : Nat) : Nat × DirState :=
  let i := st.idx % st.key.length
  let k := st.key.getD i 0
  let x := ((b + 256 - st.last % 256) % 256) ^^^ k
  (x, { key := st.key, idx := i + 1, last := b })

/-- Modelled from the spec: `transformEncrypt(headerBytes)` applies the keyed
stream transform byte-for-byte, threading the encrypt-direction state. -/
def transformEncrypt (st : DirState) : List Nat → List Nat × DirState
  | [] => ([], st)
  | b :: bs =>
    let r := encryptByte st b
    let t := transformEncrypt r.2 bs
    (r.1 :: t.1, t.2)

/-- Modelled from the spec: `transformDecrypt(headerBytes)`, threading the
decrypt-direction state. -/
def transformDecrypt (st : DirState) : List Nat → List Nat × DirState
  | [] => ([], st)
  | b :: bs =>
    let r := decryptByte st b
    let t := transformDecrypt r.2 bs
    (r.1 :: t.1, t.2)

/-- Encrypt a sequence of headers in order on one directional state. -/
def encryptHeaders (st : DirState) : List (List Nat) → List (List Nat) × DirState
  | [] => ([], st)
  | h :: hs =>
    let r := transformEncrypt st h
    let t := encryptHeaders r.2 hs
    (r.1 :: t.1, t.2)

/-- Decrypt a sequence of headers in order on one directional state. -/
def decryptHeaders (st : DirState) : List (List Nat) → List (List Nat) × DirState
  | [] => ([], st)
  | h :: hs =>
    let r := transformDecrypt st h
    let t := decryptHeaders r.2 hs
    (r.1 :: t.1, t.2)

/-- Well-formedness of a directional state: the feedback byte and every key
byte fit in a byte. -/
def Wf (st : DirState) : Prop :=
  st.last < 256 ∧ ∀ k ∈ st.key, k < 256

end AuthCrypt

/-! ## InboundReassembler.

Modelled from the spec: `ProcessIncomingData` lives in the missing
`WorldSocket.cpp`.  Following the spec's design note, the source's
"existing partial header" flag-plus-buffer pattern (`m_existingHeader`,
`m_useExistingHeader`) is rendered as an explicit cursor value
(partial header | complete header awaiting body | failed) consumed by a
single reassembly step; bytes are buffered in arrival order, the header is
decrypted and decoded once its six bytes are complete, the declared length is
validated against `maxFrameSize` (fatal failure, no resynchronization), and a
frame is emitted once the declared number of body bytes has accumulated. -/

/-- One decoded application message: numeric message type and opaque payload
bytes. -/
structure Frame where
  cmd : Nat
  payload : List Nat
  deriving Repr, DecidableEq

/-- The transient parse state spanning reads: accumulating header bytes,
accumulating body bytes after a fully-parsed header, or failed fatally. -/
inductive ReasmCursor where
  | header (buf : List Nat)
  | body (size : Nat) (cmd : Nat) (buf : List Nat)
  | failed
  deriving Repr, DecidableEq

/-- Reassembler state: the cursor plus the inbound (decrypt) cipher state,
absent until the cipher is initialized at authentication. -/
structure ReasmState where
  cursor : ReasmCursor
  recvCrypt : Option AuthCrypt.DirState
  deriving Repr, DecidableEq

/-- Decrypt header bytes when the cipher is active (post-authentication);
pre-authentication headers pass through unchanged. -/
def maybeDecrypt : Option AuthCrypt.DirState → List Nat →
    List Nat × Option AuthCrypt.DirState
  | none, bs => (bs, none)
  | some st, bs =>
    let r := AuthCrypt.transformDecrypt st bs
    (r.1, some r.2)

/-- Consume one arrived byte: at most one frame is ever in flight of partial
reassembly, and a completed header's declared length is validated before any
body storage is set up. -/
def pushByte (st : ReasmState) (b : Nat) : Option Frame × ReasmState :=
  match st.cursor with
  | .failed => (none, st)
  | .header buf =>
    let buf2 := buf ++ [b]
    if buf2.length < headerSize then
      (none, { st with cursor := .header buf2 })
    else
      let d := maybeDecrypt st.recvCrypt buf2
      let h := FrameCodec.decode d.1
      if maxFrameSize < h.size then
        (none, { cursor := .failed, recvCrypt := d.2 })
      else if h.size = 0 then
        (some { cmd := h.cmd, payload := [] },
         { cursor := .header [], recvCrypt := d.2 })
      else
        (none, { cursor := .body h.size h.cmd [], recvCrypt := d.2 })
  | .body size cmd buf =>
    let buf2 := buf ++ [b]
    if buf2.length < size then
      (none, { st with cursor := .body size cmd buf2 })
    else
      (some { cmd := cmd, payload := buf2 }, { st with cursor := .header [] })

/-- Modelled from the spec: `feed(rawBytes)` consumes newly-arrived bytes of
any length and produces zero or more complete frames in order, retaining any
incomplete remainder internally for the next call. -/
def feed : ReasmState → List Nat → List Frame × ReasmState
  | st, [] => ([], st)
  | st, b :: rest =>
    let r := pushByte st b
    let t := feed r.2 rest
    (r.1.toList ++ t.1, t.2)

/-- Feed a sequence of chunks one at a time, concatenating the decoded
frames. -/
def feedChunks : ReasmState → List (List Nat) → List Frame × ReasmState
  | st, [] => ([], st)
  | st, c :: cs =>
    let r := feed st c
    let t := feedChunks r.2 cs
    (r.1 ++ t.1, t.2)

/-! ## FloodGuard.

Modelled from the spec: `HandlePing` lives in the missing `WorldSocket.cpp`;
the header declares the tracked state (`m_lastPingTime`,
`m_overSpeedPings`).  `recordPing` tracks the elapsed time since the last
accepted liveness ping and a counter of consecutive pings received too soon;
a ping at or above the minimum interval is accepted and resets the counter. -/

/-- Verdict of the flood guard on one liveness ping. -/
inductive PingVerdict where
  | allow
  | reject
  deriving Repr, DecidableEq

/-- Flood-guard state: time of the last accepted ping and the count of
consecutive over-speed pings (`m_lastPingTime`, `m_overSpeedPings`). -/
structure FloodGuard where
  lastPingTime : Nat
  overSpeedPings : Nat
  deriving Repr, DecidableEq

/-- Modelled from the spec: `recordPing() -> allow | reject`.  A ping sooner
than `minInterval` after the last accepted ping bumps the over-speed counter
and is rejected once the counter exceeds `maxCount`; a ping at or above the
interval is accepted and resets the counter. -/
def recordPing (minInterval maxCount now : Nat) (g : FloodGuard) :
    PingVerdict × FloodGuard :=
  if now < g.lastPingTime + minInterval then
    let c := g.overSpeedPings + 1
    (if maxCount < c then PingVerdict.reject else PingVerdict.allow,
     { g with overSpeedPings := c })
  else
    (PingVerdict.allow, { lastPingTime := now, overSpeedPings := 0 })

/-- Record a sequence of pings at the given arrival times, in order. -/
def runPings (minInterval maxCount : Nat) :
    FloodGuard → List Nat → List PingVerdict × FloodGuard
  | g, [] => ([], g)
  | g, t :: ts =>
    let r := recordPing minInterval maxCount t g
    let rest := runPings minInterval maxCount r.2 ts
    (r.1 :: rest.1, rest.2)

/-! ## OutboundCoalescer.

Modelled from the spec: `SendPacket` and the flush path live in the missing
`WorldSocket.cpp`; the header documents the layout (one fixed output buffer,
64K usually, and a queue where packets are stored if there is no place in the
buffer).  `submit` appends an encoded frame to the buffer when the queue is
empty and the frame fits; otherwise it attempts an immediate flush and, if
there is still no room, appends the frame to the pending queue, preserving
submission order between buffer and queue.  `flushOnce` writes as much of the
buffer as the transport accepts in one attempt (`acc` bytes; a partial write
is re-buffered, not duplicated) and, once the buffer drains, moves queued
frames into the buffer in order.  `onTimerTick` forces a flush. -/

/-- Outbound state: buffer capacity, current buffer bytes, pending frame
queue, and the bytes written to the wire so far. -/
structure OutboundCoalescer where
  cap : Nat
  buffer : List Nat
  queue : List (List Nat)
  wire : List Nat
  deriving Repr, DecidableEq

/-- A fresh coalescer with an empty buffer, queue, and wire. -/
def initCoalescer (cap : Nat) : OutboundCoalescer :=
  { cap := cap, buffer := [], queue := [], wire := [] }

/-- Move queued frames into the buffer, in order, while they fit within the
capacity. -/
def refillAux (cap : Nat) : List Nat → List (List Nat) →
    List Nat × List (List Nat)
  | buf, [] => (buf, [])
  | buf, f :: q =>
    if buf.length + f.length ≤ cap then refillAux cap (buf ++ f) q
    else (buf, f :: q)

/-- One flush attempt: the transport accepts `acc` bytes; the unwritten
remainder is kept (not re-sent), and once the buffer drains, queued frames
are moved into the buffer for the next flush. -/
def flushOnce (acc : Nat) (st : OutboundCoalescer) : OutboundCoalescer :=
  let written := st.buffer.take acc
  let rest := st.buffer.drop acc
  if rest.isEmpty then
    let r := refillAux st.cap [] st.queue
    { st with wire := st.wire ++ written, buffer := r.1, queue := r.2 }
  else
    { st with wire := st.wire ++ written, buffer := rest }

/-- Modelled from the spec: `submit(Frame)` (the `SendPacket` path) appends
the encoded frame to the buffer when the queue is empty and there is room;
otherwise it attempts an immediate flush first and, failing that, appends the
frame to the pending queue. -/
def submit (acc : Nat) (e : List Nat) (st : OutboundCoalescer) :
    OutboundCoalescer :=
  if st.queue = [] ∧ st.buffer.length + e.length ≤ st.cap then
    { st with buffer := st.buffer ++ e }
  else
    let st1 := flushOnce acc st
    if st1.queue = [] ∧ st1.buffer.length + e.length ≤ st1.cap then
      { st1 with buffer := st1.buffer ++ e }
    else
      { st1 with queue := st1.queue ++ [e] }

/-- One externally-driven coalescer event: a frame submission, a flush when
the transport signals writability, or the bounded timer tick forcing a flush;
`acc` is how many bytes the transport accepts on that occasion (0 when not
writable). -/
inductive OutEvent where
  | submit (acc : Nat) (frame : List Nat)
  | flush (acc : Nat)
  | timerTick (acc : Nat)
  deriving Repr, DecidableEq

/-- Apply one event to the coalescer state. -/
def applyEvent (st : OutboundCoalescer) : OutEvent → OutboundCoalescer
  | OutEvent.submit acc e => submit acc e st
  | OutEvent.flush acc => flushOnce acc st
  | OutEvent.timerTick acc => flushOnce acc st

/-- Run a sequence of events in order. -/
def runEvents : OutboundCoalescer → List OutEvent → OutboundCoalescer
  | st, [] => st
  | st, ev :: evs => runEvents (applyEvent st ev) evs

/-- The frames submitted in an event trace, in submission order. -/
def submittedFrames : List OutEvent → List (List Nat)
  | [] => []
  | OutEvent.submit _ e :: evs => e :: submittedFrames evs
  | OutEvent.flush _ :: evs => submittedFrames evs
  | OutEvent.timerTick _ :: evs => submittedFrames evs

/-- All bytes the coalescer is responsible for, in wire order: already
written, then buffered, then queued. -/
def outstanding (st : OutboundCoalescer) : List Nat :=
  st.wire ++ st.buffer ++ st.queue.flatten

/-- Coalescer well-formedness: fixed capacity, buffer within capacity, and
every queued frame individually fits within capacity. -/
def WfOut (cap : Nat) (st : OutboundCoalescer) : Prop :=
  st.cap = cap ∧ st.buffer.length ≤ cap ∧ ∀ f ∈ st.queue, f.length ≤ cap

/-! ## ConnectionStateMachine and the connection state.

The connection state mirrors the fields declared in `WorldSocket.h`
(`m_lastPingTime`, `m_overSpeedPings`, `m_existingHeader` /
`m_useExistingHeader` as the reassembly cursor, the two directional halves of
`m_crypt`, `m_session`, `m_sessionFinalized`, `m_seed`, `m_s`, the output
buffer and queue of the base class, and the open socket).  The dispatch logic
(`ProcessIncomingData`, `HandleAuthSession`) is modelled from the spec:
in `Anonymous`/`Authenticating` only the handshake type is accepted and any
other type is a protocol violation leading to `Closing`; an unknown identity
or proof mismatch leads directly to `Closing`; a valid proof initializes the
cipher and binds the session. -/

/-- Connection lifecycle states. -/
inductive LifeState where
  | anonymous
  | authenticating
  | authenticated
  | closing
  | closed
  deriving Repr, DecidableEq

/-- Modelled from the spec: the handshake (auth-session) message type.  The
numeric opcode values are not fixed by the spec; they only need to be
distinct. -/
def CMSG_AUTH_SESSION : Nat := 493

/-- Modelled from the spec: the liveness ping message type. -/
def CMSG_PING : Nat := 476

/-- Modelled from the spec: the configured minimum liveness-ping interval. -/
def pingMinInterval : Nat := 27

/-- Modelled from the spec: the configured number of allowed consecutive
over-speed pings. -/
def maxAllowedOverSpeedPings : Nat := 2

/-- The per-connection state (fields of `WorldSocket` in the source header;
the session is modelled as the list of frames delivered to it so far). -/
structure Conn where
  life : LifeState
  lastPingTime : Nat
  overSpeedPings : Nat
  reasm : ReasmState
  sendCrypt : Option AuthCrypt.DirState
  session : Option (List Frame)
  sessionFinalized : Bool
  seed : Nat
  sessionKey : List Nat
  out : OutboundCoalescer
  socketOpen : Bool
  deriving Repr, DecidableEq

/-- From the source (`WorldSocket.h` line 130):
`void FinalizeSession() { m_session = nullptr; }`. -/
def FinalizeSession (c : Conn) : Conn :=
  { c with session := none }

/-- Modelled from the spec: routing a decoded message to the bound session;
after `unbind()` the session reference is absent and the dispatch is silently
dropped rather than faulting. -/
def dispatchToSession (c : Conn) (f : Frame) : Conn :=
  match c.session with
  | none => c
  | some ms => { c with session := some (ms ++ [f]) }

/-- Modelled from the spec: `HandlePing` runs the flood guard over the
connection's ping-tracking fields and closes the connection on `reject`. -/
def HandlePing (now : Nat) (c : Conn) : Conn :=
  let r := recordPing pingMinInterval maxAllowedOverSpeedPings now
    { lastPingTime := c.lastPingTime, overSpeedPings := c.overSpeedPings }
  let c2 := { c with lastPingTime := r.2.lastPingTime,
                     overSpeedPings := r.2.overSpeedPings }
  match r.1 with
  | PingVerdict.allow => c2
  | PingVerdict.reject => { c2 with life := LifeState.closing }

/-- Modelled from the spec: the claimed identity carried by a handshake
payload (the spec fixes no payload layout; we take the first byte). -/
def identityOf (payload : List Nat) : Nat := payload.headD 0

/-- Modelled from the spec: the proof carried by a handshake payload (the
remaining bytes). -/
def proofOf (payload : List Nat) : List Nat := payload.tail

/-- Whether a handshake payload authenticates against the external
session-key store: the identity must be known and the proof must match the
stored secret. -/
def authOk (lookup : Nat → Option (List Nat)) (payload : List Nat) : Bool :=
  match lookup (identityOf payload) with
  | none => false
  | some secret => proofOf payload == secret

/-- Modelled from the spec: `HandleAuthSession` parses identity and proof,
looks up the previously-established shared secret, and on an unknown identity
or proof mismatch transitions directly to `Closing`; on success it
initializes both cipher directions and binds a fresh session. -/
def HandleAuthSession (lookup : Nat → Option (List Nat)) (c : Conn)
    (f : Frame) : Conn :=
  match lookup (identityOf f.payload) with
  | none => { c with life := LifeState.closing }
  | some secret =>
    if proofOf f.payload == secret then
      { c with life := LifeState.authenticated,
               sendCrypt := some (AuthCrypt.initState secret),
               reasm := { c.reasm with
                          recvCrypt := some (AuthCrypt.initState secret) },
               session := some [] }
    else { c with life := LifeState.closing }

/-- Modelled from the spec: the per-frame dispatch of `ProcessIncomingData`,
gated by the lifecycle state. -/
def handleFrame (lookup : Nat → Option (List Nat)) (now : Nat) (c : Conn)
    (f : Frame) : Conn :=
  match c.life with
  | LifeState.closing => c
  | LifeState.closed => c
  | LifeState.anonymous =>
    if f.cmd = CMSG_AUTH_SESSION then HandleAuthSession lookup c f
    else { c with life := LifeState.closing }
  | LifeState.authenticating =>
    if f.cmd = CMSG_AUTH_SESSION then HandleAuthSession lookup c f
    else { c with life := LifeState.closing }
  | LifeState.authenticated =>
    if f.cmd = CMSG_AUTH_SESSION then { c with life := LifeState.closing }
    else if f.cmd = CMSG_PING then HandlePing now c
    else dispatchToSession c f

/-- One arrived byte at connection level: ignored when the connection is
closing or closed; otherwise run the reassembler and, on a fatal reassembly
failure, close; on a completed frame, dispatch it. -/
def connPushByte (lookup : Nat → Option (List Nat)) (now : Nat) (c : Conn)
    (b : Nat) : Conn :=
  if c.life = LifeState.closing ∨ c.life = LifeState.closed then c
  else
    let r := pushByte c.reasm b
    if r.2.cursor = ReasmCursor.failed then
      { c with reasm := r.2, life := LifeState.closing }
    else
      match r.1 with
      | none => { c with reasm := r.2 }
      | some f => handleFrame lookup now { c with reasm := r.2 } f

/-- Modelled from the spec: connection-level `feed` — deliver arrived bytes
in order, reassembling and dispatching; once the connection is closing, bytes
are ignored, not parsed. -/
def connFeed (lookup : Nat → Option (List Nat)) (now : Nat) :
    Conn → List Nat → Conn
  | c, [] => c
  | c, b :: rest => connFeed lookup now (connPushByte lookup now c b) rest

/-- A freshly accepted connection: anonymous, no cipher, no session, empty
reassembly and output state, open socket, 64K output buffer (per the source
header's comment). -/
def freshConn (seed : Nat) : Conn :=
  { life := LifeState.anonymous, lastPingTime := 0, overSpeedPings := 0,
    reasm := { cursor := ReasmCursor.header [], recvCrypt := none },
    sendCrypt := none, session := none, sessionFinalized := false,
    seed := seed, sessionKey := [], out := initCoalescer 65536,
    socketOpen := true }

/-! ## Theorems. -/

namespace FrameCodec

theorem decode_encodeHeader (n m : Nat) (hn : n < 65536) (hm : m < 4294967296) :
    decode (encodeHeader { size := n, cmd := m }) = { size := n, cmd := m } := by
  simp only [decode, encodeHeader, List.getD, List.get?, Option.getD_some,
    ClientPktHeader.mk.injEq]
  omega

end FrameCodec

namespace AuthCrypt

theorem getD_lt_256 (l : List Nat) (i : Nat) (hl : ∀ k ∈ l, k < 256) :
    l.getD i 0 < 256 := by
  rcases Nat.lt_or_ge i l.length with h | h
  · rw [List.getD_eq_getElem _ _ h]
    exact hl _ (List.getElem_mem h)
  · rw [List.getD_eq_default _ _ h]
    omega

theorem decryptByte_encryptByte (st : DirState) (b : Nat)
    (hw : Wf st) (hb : b < 256) :
    decryptByte st (encryptByte st b).1 = (b, (encryptByte st b).2) ∧
      Wf (encryptByte st b).2 := by
  obtain ⟨hl, hk⟩ := hw
  have hkb : st.key.getD (st.idx % st.key.length) 0 < 256 := getD_lt_256 _ _ hk
  have hm : b ^^^ st.key.getD (st.idx % st.key.length) 0 < 256 := by
    have h1 : b < 2 ^ 8 := by omega
    have h2 : st.key.getD (st.idx % st.key.length) 0 < 2 ^ 8 := by omega
    exact (Nat.xor_lt_two_pow h1 h2).trans_le (by norm_num)
  refine ⟨?_, ?_⟩
  · simp only [encryptByte, decryptByte, Prod.mk.injEq]
    refine ⟨?_, trivial⟩
    have hfix : ((((b ^^^ st.key.getD (st.idx % st.key.length) 0) + st.last) % 256
        + 256 - st.last % 256) % 256) = b ^^^ st.key.getD (st.idx % st.key.length) 0 := by
      omega
    rw [hfix]
    exact Nat.xor_cancel_right _ _
  · exact ⟨Nat.mod_lt _ (by omega), hk⟩

theorem transform_roundtrip : ∀ (bs : List Nat) (st : DirState),
    Wf st → (∀ b ∈ bs, b < 256) →
    transformDecrypt st (transformEncrypt st bs).1 =
        (bs, (transformEncrypt st bs).2) ∧
      Wf (transformEncrypt st bs).2
  | [], st, hw, _ => ⟨rfl, hw⟩
  | b :: bs, st, hw, hb => by
    have hbyte := decryptByte_encryptByte st b hw (hb b (List.mem_cons_self b bs))
    have hrest := transform_roundtrip bs (encryptByte st b).2 hbyte.2
      (fun x hx => hb x (List.mem_cons_of_mem b hx))
    simp only [transformEncrypt, transformDecrypt]
    rw [hbyte.1]
    simp only [hrest.1]
    exact ⟨trivial, hrest.2⟩

theorem headers_roundtrip : ∀ (hs : List (List Nat)) (st : DirState),
    Wf st → (∀ h ∈ hs, ∀ b ∈ h, b < 256) →
    decryptHeaders st (encryptHeaders st hs).1 =
        (hs, (encryptHeaders st hs).2) ∧
      Wf (encryptHeaders st hs).2
  | [], st, hw, _ => ⟨rfl, hw⟩
  | h :: hs, st, hw, hb => by
    have hhead := transform_roundtrip h st hw (hb h (List.mem_cons_self h hs))
    have hrest := headers_roundtrip hs (transformEncrypt st h).2 hhead.2
      (fun x hx => hb x (List.mem_cons_of_mem h hx))
    simp only [encryptHeaders, decryptHeaders]
    rw [hhead.1]
    simp only [hrest.1]
    exact ⟨trivial, hrest.2⟩

end AuthCrypt

/-- C2: after the header cipher is initialized with a shared secret, decrypting
with the inbound directional state the headers produced by encrypting with the
outbound directional state, in the order they were produced, reproduces the
original header bytes exactly; the two directional states advance in lockstep
(the final decrypt state equals the final encrypt state) without ever being
interchanged. -/
theorem cipher_roundtrip (secret : List Nat) (headers : List (List Nat))
    (hsec : ∀ k ∈ secret, k < 256)
    (hh : ∀ h ∈ headers, ∀ b ∈ h, b < 256) :
    (AuthCrypt.decryptHeaders (AuthCrypt.initCipher secret).2
        (AuthCrypt.encryptHeaders (AuthCrypt.initCipher secret).1 headers).1).1
        = headers ∧
      (AuthCrypt.decryptHeaders (AuthCrypt.initCipher secret).2
        (AuthCrypt.encryptHeaders (AuthCrypt.initCipher secret).1 headers).1).2
        = (AuthCrypt.encryptHeaders (AuthCrypt.initCipher secret).1 headers).2 := by
  have hw : AuthCrypt.Wf (AuthCrypt.initState secret) :=
    ⟨by simp [AuthCrypt.initState], hsec⟩
  have h := AuthCrypt.headers_roundtrip headers (AuthCrypt.initState secret) hw hh
  exact ⟨by rw [AuthCrypt.initCipher] at *; rw [h.1],
         by rw [AuthCrypt.initCipher] at *; rw [h.1]⟩

/-- C2 witness: a concrete secret and two six-byte headers round-trip through
the two directional cipher states. -/
theorem cipher_roundtrip_witness :
    (AuthCrypt.decryptHeaders (AuthCrypt.initCipher [1, 2, 3]).2
        (AuthCrypt.encryptHeaders (AuthCrypt.initCipher [1, 2, 3]).1
          [[7, 8, 9, 10, 11, 12], [255, 0, 1, 2, 3, 4]]).1).1
        = [[7, 8, 9, 10, 11, 12], [255, 0, 1, 2, 3, 4]] ∧
      (AuthCrypt.decryptHeaders (AuthCrypt.initCipher [1, 2, 3]).2
        (AuthCrypt.encryptHeaders (AuthCrypt.initCipher [1, 2, 3]).1
          [[7, 8, 9, 10, 11, 12], [255, 0, 1, 2, 3, 4]]).1).2
        = (AuthCrypt.encryptHeaders (AuthCrypt.initCipher [1, 2, 3]).1
          [[7, 8, 9, 10, 11, 12], [255, 0, 1, 2, 3, 4]]).2 :=
  cipher_roundtrip [1, 2, 3] [[7, 8, 9, 10, 11, 12], [255, 0, 1, 2, 3, 4]]
    (by decide) (by decide)

/-- C7: for every valid (messageType, payload) pair, decoding the header
produced by `encode` reproduces the original message type and payload length,
before the cipher is engaged; the inbound header is the fixed little-endian
pair of a 16-bit payload length followed by a 32-bit message type. -/
theorem header_roundtrip (messageType : Nat) (payload : List Nat)
    (hp : payload.length < 65536) (hm : messageType < 4294967296) :
    FrameCodec.decode (FrameCodec.encode messageType payload) =
      { size := payload.length, cmd := messageType } := by
  simp only [FrameCodec.encode, FrameCodec.encodeHeader, List.cons_append,
    List.nil_append]
  simp only [FrameCodec.decode, List.getD, List.get?, Option.getD_some,
    ClientPktHeader.mk.injEq]
  omega

/-- C7 witness: a concrete message type and payload round-trip through the
header codec. -/
theorem header_roundtrip_witness :
    FrameCodec.decode (FrameCodec.encode 42 [1, 2, 3]) =
      { size := 3, cmd := 42 } :=
  header_roundtrip 42 [1, 2, 3] (by decide) (by decide)

theorem feed_append (a b : List Nat) (st : ReasmState) :
    feed st (a ++ b) =
      ((feed st a).1 ++ (feed (feed st a).2 b).1, (feed (feed st a).2 b).2) := by
  induction a generalizing st with
  | nil => simp [feed]
  | cons x xs ih => simp [feed, ih, List.append_assoc]

/-- C1: feeding any chunked partition of a byte sequence to the inbound
reassembler, one chunk at a time, yields exactly the same ordered frame
sequence and final state as feeding the whole sequence in one call — so a
frame header or body may be split at any byte boundary across any number of
deliveries without changing the result. -/
theorem reassembly_chunk_independent (st : ReasmState)
    (chunks : List (List Nat)) :
    feedChunks st chunks = feed st chunks.flatten := by
  induction chunks generalizing st with
  | nil => simp [feedChunks, feed]
  | cons c cs ih => simp [feedChunks, List.flatten, feed_append, ih]

theorem runPings_append (minInterval maxCount : Nat) (a b : List Nat)
    (g : FloodGuard) :
    runPings minInterval maxCount g (a ++ b) =
      ((runPings minInterval maxCount g a).1 ++
         (runPings minInterval maxCount
            (runPings minInterval maxCount g a).2 b).1,
       (runPings minInterval maxCount
          (runPings minInterval maxCount g a).2 b).2) := by
  induction a generalizing g with
  | nil => simp [runPings]
  | cons x xs ih => simp [runPings, ih]

theorem runPings_allow (minInterval maxCount : Nat) :
    ∀ (times : List Nat) (g : FloodGuard),
    (∀ t ∈ times, t < g.lastPingTime + minInterval) →
    g.overSpeedPings + times.length ≤ maxCount →
    runPings minInterval maxCount g times =
      (List.replicate times.length PingVerdict.allow,
       { g with overSpeedPings := g.overSpeedPings + times.length })
  | [], g, _, _ => by simp [runPings]
  | t :: ts, g, hf, hcnt => by
    have ht : t < g.lastPingTime + minInterval := hf t (List.mem_cons_self t ts)
    have hrest := runPings_allow minInterval maxCount ts
      { g with overSpeedPings := g.overSpeedPings + 1 }
      (fun x hx => hf x (List.mem_cons_of_mem t hx))
      (by simp only [List.length_cons] at hcnt; simpa using by omega)
    simp only [runPings, recordPing, if_pos ht]
    rw [if_neg (by simp only [List.length_cons] at hcnt; omega)]
    rw [hrest]
    simp only [List.length_cons, List.replicate_succ, Prod.mk.injEq]
    exact ⟨trivial, by congr 1; omega⟩

/-- C6: on a run of (threshold + 1) consecutive pings each arriving sooner
than the configured minimum interval since the last accepted ping, the flood
guard allows the first `maxCount` of them and rejects exactly the first call
whose over-speed count exceeds the allowed count, never earlier; a ping at or
above the minimum interval is never rejected. -/
theorem floodguard_threshold (minInterval maxCount : Nat) (g : FloodGuard)
    (ts : List Nat) (tl : Nat) (now : Nat) (g2 : FloodGuard)
    (h0 : g.overSpeedPings = 0)
    (hlen : ts.length = maxCount)
    (hfast : ∀ t ∈ ts ++ [tl], t < g.lastPingTime + minInterval)
    (hslow : g2.lastPingTime + minInterval ≤ now) :
    (runPings minInterval maxCount g (ts ++ [tl])).1 =
        List.replicate maxCount PingVerdict.allow ++ [PingVerdict.reject] ∧
      (recordPing minInterval maxCount now g2).1 = PingVerdict.allow := by
  constructor
  · have hA := runPings_allow minInterval maxCount ts g
      (fun t htm => hfast t (List.mem_append_left _ htm))
      (by omega)
    rw [runPings_append, hA]
    have htl : tl < g.lastPingTime + minInterval :=
      hfast tl (List.mem_append_right _ (List.mem_cons_self tl []))
    simp only [runPings, recordPing]
    rw [if_pos (by simpa using htl)]
    rw [if_pos (by omega)]
    simp [hlen]
  · simp only [recordPing]
    rw [if_neg (by omega)]

/-- C6 witness: with a 5-tick minimum interval and 2 allowed over-speed
pings, three fast pings yield allow, allow, reject, and a slow ping is
allowed. -/
theorem floodguard_threshold_witness :
    (runPings 5 2 { lastPingTime := 0, overSpeedPings := 0 }
        ([1, 2] ++ [3])).1 =
        List.replicate 2 PingVerdict.allow ++ [PingVerdict.reject] ∧
      (recordPing 5 2 10 { lastPingTime := 0, overSpeedPings := 0 }).1 =
        PingVerdict.allow :=
  floodguard_threshold 5 2 { lastPingTime := 0, overSpeedPings := 0 }
    [1, 2] 3 10 { lastPingTime := 0, overSpeedPings := 0 }
    rfl rfl (by decide) (by decide)

theorem refillAux_concat (cap : Nat) : ∀ (q : List (List Nat)) (buf : List Nat),
    (refillAux cap buf q).1 ++ (refillAux cap buf q).2.flatten =
      buf ++ q.flatten
  | [], buf => by simp [refillAux]
  | f :: q, buf => by
    by_cases h : buf.length + f.length ≤ cap
    · rw [refillAux, if_pos h]
      rw [refillAux_concat cap q (buf ++ f)]
      simp
    · rw [refillAux, if_neg h]

theorem outstanding_flushOnce (acc : Nat) (st : OutboundCoalescer) :
    outstanding (flushOnce acc st) = outstanding st := by
  rw [flushOnce]
  by_cases h : (st.buffer.drop acc).isEmpty
  · rw [if_pos h]
    have hdrop : st.buffer.drop acc = [] := List.isEmpty_iff.mp h
    have hlen : st.buffer.length ≤ acc := by
      have h2 := congrArg List.length hdrop
      simp only [List.length_drop, List.length_nil] at h2
      omega
    have hbuf : st.buffer.take acc = st.buffer := List.take_of_length_le hlen
    have hr := refillAux_concat st.cap st.queue []
    simp only [List.nil_append] at hr
    simp only [outstanding, hbuf, List.append_assoc]
    rw [hr]
  · rw [if_neg h]
    simp only [outstanding, List.append_assoc]
    rw [← List.append_assoc (st.buffer.take acc), List.take_append_drop]

theorem outstanding_submit (acc : Nat) (e : List Nat)
    (st : OutboundCoalescer) :
    outstanding (submit acc e st) = outstanding st ++ e := by
  rw [submit]
  by_cases h1 : st.queue = [] ∧ st.buffer.length + e.length ≤ st.cap
  · rw [if_pos h1]
    simp [outstanding, h1.1]
  · rw [if_neg h1]
    by_cases h2 : (flushOnce acc st).queue = [] ∧
        (flushOnce acc st).buffer.length + e.length ≤ (flushOnce acc st).cap
    · rw [if_pos h2]
      have := outstanding_flushOnce acc st
      simp only [outstanding] at *
      rw [← this, h2.1]
      simp
    · rw [if_neg h2]
      have := outstanding_flushOnce acc st
      simp only [outstanding] at *
      rw [← this]
      simp

theorem outstanding_runEvents : ∀ (evs : List OutEvent)
    (st : OutboundCoalescer),
    outstanding (runEvents st evs) =
      outstanding st ++ (submittedFrames evs).flatten
  | [], st => by simp [runEvents, submittedFrames]
  | OutEvent.submit acc e :: evs, st => by
    rw [runEvents, outstanding_runEvents evs]
    simp [applyEvent, outstanding_submit, submittedFrames]
  | OutEvent.flush acc :: evs, st => by
    rw [runEvents, outstanding_runEvents evs]
    simp [applyEvent, outstanding_flushOnce, submittedFrames]
  | OutEvent.timerTick acc :: evs, st => by
    rw [runEvents, outstanding_runEvents evs]
    simp [applyEvent, outstanding_flushOnce, submittedFrames]

theorem refillAux_buffer_le (cap : Nat) : ∀ (q : List (List Nat))
    (buf : List Nat), buf.length ≤ cap → (refillAux cap buf q).1.length ≤ cap
  | [], buf, hb => hb
  | f :: q, buf, hb => by
    by_cases h : buf.length + f.length ≤ cap
    · rw [refillAux, if_pos h]
      exact refillAux_buffer_le cap q (buf ++ f)
        (by simp only [List.length_append]; omega)
    · rw [refillAux, if_neg h]
      exact hb

theorem refillAux_queue_sub (cap : Nat) : ∀ (q : List (List Nat))
    (buf : List Nat) (f : List Nat), f ∈ (refillAux cap buf q).2 → f ∈ q
  | [], buf, f, hf => by rw [refillAux] at hf; exact absurd hf (by simp)
  | g :: q, buf, f, hf => by
    by_cases h : buf.length + g.length ≤ cap
    · rw [refillAux, if_pos h] at hf
      exact List.mem_cons_of_mem g (refillAux_queue_sub cap q (buf ++ g) f hf)
    · rw [refillAux, if_neg h] at hf
      exact hf

theorem refillAux_queue_len (cap : Nat) : ∀ (q : List (List Nat))
    (buf : List Nat), (refillAux cap buf q).2.length ≤ q.length
  | [], buf => by simp [refillAux]
  | g :: q, buf => by
    by_cases h : buf.length + g.length ≤ cap
    · rw [refillAux, if_pos h]
      exact (refillAux_queue_len cap q (buf ++ g)).trans (by simp)
    · rw [refillAux, if_neg h]

theorem WfOut_flushOnce (cap acc : Nat) (st : OutboundCoalescer)
    (hw : WfOut cap st) : WfOut cap (flushOnce acc st) := by
  obtain ⟨hc, hb, hq⟩ := hw
  rw [flushOnce]
  by_cases h : (st.buffer.drop acc).isEmpty
  · rw [if_pos h]
    refine ⟨hc, ?_, ?_⟩
    · show (refillAux st.cap [] st.queue).1.length ≤ cap
      have := refillAux_buffer_le st.cap st.queue [] (by simp)
      omega
    · intro f hf
      exact hq f (refillAux_queue_sub st.cap st.queue [] f hf)
  · rw [if_neg h]
    refine ⟨hc, ?_, hq⟩
    simp only [List.length_drop]
    omega

theorem WfOut_submit (cap acc : Nat) (e : List Nat) (st : OutboundCoalescer)
    (hw : WfOut cap st) (he : e.length ≤ cap) :
    WfOut cap (submit acc e st) := by
  obtain ⟨hc, hb, hq⟩ := hw
  rw [submit]
  by_cases h1 : st.queue = [] ∧ st.buffer.length + e.length ≤ st.cap
  · rw [if_pos h1]
    refine ⟨hc, ?_, fun f hf => hq f hf⟩
    have := h1.2
    simp only [List.length_append]
    omega
  · rw [if_neg h1]
    have hw1 := WfOut_flushOnce cap acc st ⟨hc, hb, hq⟩
    obtain ⟨hc1, hb1, hq1⟩ := hw1
    by_cases h2 : (flushOnce acc st).queue = [] ∧
        (flushOnce acc st).buffer.length + e.length ≤ (flushOnce acc st).cap
    · rw [if_pos h2]
      refine ⟨hc1, ?_, fun f hf => hq1 f hf⟩
      have := h2.2
      simp only [List.length_append]
      omega
    · rw [if_neg h2]
      refine ⟨hc1, hb1, ?_⟩
      intro f hf
      rcases List.mem_append.mp hf with hin | hin
      · exact hq1 f hin
      · rw [List.mem_singleton.mp hin]
        exact he

theorem WfOut_runEvents (cap : Nat) : ∀ (evs : List OutEvent)
    (st : OutboundCoalescer), WfOut cap st →
    (∀ f ∈ submittedFrames evs, f.length ≤ cap) →
    WfOut cap (runEvents st evs)
  | [], st, hw, _ => hw
  | OutEvent.submit acc e :: evs, st, hw, hf =>
    WfOut_runEvents cap evs _
      (WfOut_submit cap acc e st hw (hf e (by simp [submittedFrames])))
      (fun g hg => hf g (by simp [submittedFrames]; right; exact hg))
  | OutEvent.flush acc :: evs, st, hw, hf =>
    WfOut_runEvents cap evs _ (WfOut_flushOnce cap acc st hw)
      (fun g hg => hf g (by simpa [submittedFrames] using hg))
  | OutEvent.timerTick acc :: evs, st, hw, hf =>
    WfOut_runEvents cap evs _ (WfOut_flushOnce cap acc st hw)
      (fun g hg => hf g (by simpa [submittedFrames] using hg))

theorem flushOnce_full (acc : Nat) (st : OutboundCoalescer)
    (hb : st.buffer.length ≤ acc) :
    flushOnce acc st =
      { st with wire := st.wire ++ st.buffer,
                buffer := (refillAux st.cap [] st.queue).1,
                queue := (refillAux st.cap [] st.queue).2 } := by
  rw [flushOnce]
  have hdrop : st.buffer.drop acc = [] := List.drop_eq_nil_of_le hb
  rw [if_pos (by simp [hdrop])]
  rw [List.take_of_length_le hb]

theorem flushOnce_idle (acc : Nat) (st : OutboundCoalescer)
    (hb : st.buffer = []) (hq : st.queue = []) : flushOnce acc st = st := by
  rw [flushOnce_full acc st (by simp [hb]), hq, hb]
  rw [refillAux]
  cases st with
  | mk c b q w => simp_all

theorem refillAux_cons_len (cap : Nat) (g : List Nat) (q : List (List Nat))
    (hg : g.length ≤ cap) :
    (refillAux cap [] (g :: q)).2.length ≤ q.length := by
  rw [refillAux, if_pos (by simpa using hg)]
  exact refillAux_queue_len cap q ([] ++ g)

theorem drain (cap : Nat) : ∀ (n : Nat) (st : OutboundCoalescer),
    WfOut cap st → st.queue.length ≤ n →
    ((flushOnce cap)^[n + 1] st).wire = outstanding st ∧
      ((flushOnce cap)^[n + 1] st).buffer = [] ∧
      ((flushOnce cap)^[n + 1] st).queue = []
  | 0, st, hw, hn => by
    obtain ⟨hc, hb, hq⟩ := hw
    have hqnil : st.queue = [] := List.length_eq_zero.mp (by omega)
    have h1 : flushOnce cap st =
        { st with wire := st.wire ++ st.buffer, buffer := [], queue := [] } := by
      rw [flushOnce_full cap st hb, hqnil, refillAux]
    have e1 : (flushOnce cap)^[0 + 1] st = flushOnce cap st := by simp
    rw [e1, h1]
    simp [outstanding, hqnil]
  | n + 1, st, hw, hn => by
    obtain ⟨hc, hb, hq⟩ := hw
    cases hqe : st.queue with
    | nil =>
      have h1 : flushOnce cap st =
          { st with wire := st.wire ++ st.buffer, buffer := [], queue := [] } := by
        rw [flushOnce_full cap st hb, hqe, refillAux]
      have hfix : flushOnce cap
          { st with wire := st.wire ++ st.buffer, buffer := [], queue := [] } =
          { st with wire := st.wire ++ st.buffer, buffer := [], queue := [] } :=
        flushOnce_idle cap _ rfl rfl
      rw [Function.iterate_succ_apply, h1, Function.iterate_fixed hfix]
      simp [outstanding, hqe]
    | cons g q2 =>
      have hgle : g.length ≤ cap :=
        hq g (by rw [hqe]; exact List.mem_cons_self g q2)
      have hw2 := WfOut_flushOnce cap cap st ⟨hc, hb, hq⟩
      have hql : (flushOnce cap st).queue.length ≤ n := by
        rw [flushOnce_full cap st hb]
        show (refillAux st.cap [] st.queue).2.length ≤ n
        rw [hqe]
        have h2 := refillAux_cons_len st.cap g q2 (by omega)
        have h3 : st.queue.length = q2.length + 1 := by rw [hqe]; rfl
        omega
      have ih := drain cap n (flushOnce cap st) hw2 hql
      rw [Function.iterate_succ_apply]
      exact ⟨ih.1.trans (outstanding_flushOnce cap st), ih.2.1, ih.2.2⟩

/-- C5: for every event trace (frame submissions interleaved with flush
attempts and timer ticks, each accepting however many bytes the transport
takes, including zero when not writable), the wire bytes followed by the
buffered bytes followed by the queued bytes are exactly the concatenation of
the submitted frames in submission order — no duplication of partially
written bytes, no reordering between buffer and queue; moreover, once
flushing resumes (enough full flushes), the wire alone carries exactly that
concatenation. -/
theorem coalescer_preserves_order (cap : Nat) (evs : List OutEvent)
    (hframes : ∀ f ∈ submittedFrames evs, f.length ≤ cap) :
    outstanding (runEvents (initCoalescer cap) evs) =
        (submittedFrames evs).flatten ∧
      ((flushOnce cap)^[(runEvents (initCoalescer cap) evs).queue.length + 1]
          (runEvents (initCoalescer cap) evs)).wire =
        (submittedFrames evs).flatten := by
  have hwf : WfOut cap (runEvents (initCoalescer cap) evs) :=
    WfOut_runEvents cap evs (initCoalescer cap)
      ⟨rfl, by simp [initCoalescer], by simp [initCoalescer]⟩ hframes
  have hout : outstanding (runEvents (initCoalescer cap) evs) =
      (submittedFrames evs).flatten := by
    rw [outstanding_runEvents]
    simp [outstanding, initCoalescer]
  have hdrain := drain cap (runEvents (initCoalescer cap) evs).queue.length
    (runEvents (initCoalescer cap) evs) hwf le_rfl
  exact ⟨hout, hdrain.1.trans hout⟩

/-- C5 witness: two frames submitted against a non-writable transport with an
8-byte buffer, then two resumed flushes, end with the wire carrying their
exact concatenation. -/
theorem coalescer_preserves_order_witness :
    outstanding (runEvents (initCoalescer 8)
        [OutEvent.submit 0 [1, 2, 3, 4, 5], OutEvent.submit 0 [6, 7, 8, 9],
         OutEvent.flush 9, OutEvent.timerTick 9]) =
        (submittedFrames
          [OutEvent.submit 0 [1, 2, 3, 4, 5], OutEvent.submit 0 [6, 7, 8, 9],
           OutEvent.flush 9, OutEvent.timerTick 9]).flatten ∧
      ((flushOnce 8)^[(runEvents (initCoalescer 8)
            [OutEvent.submit 0 [1, 2, 3, 4, 5], OutEvent.submit 0 [6, 7, 8, 9],
             OutEvent.flush 9, OutEvent.timerTick 9]).queue.length + 1]
          (runEvents (initCoalescer 8)
            [OutEvent.submit 0 [1, 2, 3, 4, 5], OutEvent.submit 0 [6, 7, 8, 9],
             OutEvent.flush 9, OutEvent.timerTick 9])).wire =
        (submittedFrames
          [OutEvent.submit 0 [1, 2, 3, 4, 5], OutEvent.submit 0 [6, 7, 8, 9],
           OutEvent.flush 9, OutEvent.timerTick 9]).flatten :=
  coalescer_preserves_order 8
    [OutEvent.submit 0 [1, 2, 3, 4, 5], OutEvent.submit 0 [6, 7, 8, 9],
     OutEvent.flush 9, OutEvent.timerTick 9]
    (by decide)

/-- C10: `FinalizeSession()` clears only the bound-session reference; the
lifecycle state, ping counters, reassembly state, both cipher directions, the
finalized flag, seed, session key, outbound buffer and queue, and the open
socket are all unchanged, so unbinding alone never closes or tears down the
connection. -/
theorem FinalizeSession_clears_only_session (c : Conn) :
    (FinalizeSession c).session = none ∧
      (FinalizeSession c).life = c.life ∧
      (FinalizeSession c).lastPingTime = c.lastPingTime ∧
      (FinalizeSession c).overSpeedPings = c.overSpeedPings ∧
      (FinalizeSession c).reasm = c.reasm ∧
      (FinalizeSession c).sendCrypt = c.sendCrypt ∧
      (FinalizeSession c).sessionFinalized = c.sessionFinalized ∧
      (FinalizeSession c).seed = c.seed ∧
      (FinalizeSession c).sessionKey = c.sessionKey ∧
      (FinalizeSession c).out = c.out ∧
      (FinalizeSession c).socketOpen = c.socketOpen :=
  ⟨rfl, rfl, rfl, rfl, rfl, rfl, rfl, rfl, rfl, rfl, rfl⟩

/-- C9: after the session layer unbinds via `FinalizeSession`, every dispatch
of a decoded message to the session is silently dropped: the operation is
total and leaves the connection unchanged, never dereferencing the cleared
session reference. -/
theorem dispatch_after_unbind_dropped (c : Conn) (f : Frame) :
    dispatchToSession (FinalizeSession c) f = FinalizeSession c := rfl

/-- C4: while anonymous, every received message whose type is not the
handshake type is rejected and sends the connection to `Closing`, with no
other effect — no non-handshake message is ever processed before
authentication. -/
theorem anonymous_rejects_non_handshake (lookup : Nat → Option (List Nat))
    (now : Nat) (c : Conn) (f : Frame)
    (hanon : c.life = LifeState.anonymous)
    (hcmd : f.cmd ≠ CMSG_AUTH_SESSION) :
    handleFrame lookup now c f = { c with life := LifeState.closing } := by
  simp only [handleFrame]
  rw [hanon]
  show (if f.cmd = CMSG_AUTH_SESSION then HandleAuthSession lookup c f
        else { c with life := LifeState.closing }) =
      { c with life := LifeState.closing }
  rw [if_neg hcmd]

/-- C4 witness: a ping frame arriving on a fresh anonymous connection sends
it to `Closing`. -/
theorem anonymous_rejects_non_handshake_witness :
    handleFrame (fun _ => none) 0 (freshConn 7)
        { cmd := CMSG_PING, payload := [] } =
      { freshConn 7 with life := LifeState.closing } :=
  anonymous_rejects_non_handshake (fun _ => none) 0 (freshConn 7)
    { cmd := CMSG_PING, payload := [] } rfl (by decide)

theorem connFeed_closing (lookup : Nat → Option (List Nat)) (now : Nat) :
    ∀ (bs : List Nat) (c : Conn), c.life = LifeState.closing →
    connFeed lookup now c bs = c
  | [], _, _ => rfl
  | b :: bs, c, hc => by
    rw [connFeed, connPushByte, if_pos (Or.inl hc)]
    exact connFeed_closing lookup now bs c hc

theorem connPushByte_quiet (lookup : Nat → Option (List Nat)) (now : Nat)
    (c : Conn) (b : Nat) (st2 : ReasmState)
    (hlife : ¬(c.life = LifeState.closing ∨ c.life = LifeState.closed))
    (hpush : pushByte c.reasm b = (none, st2))
    (hnf : st2.cursor ≠ ReasmCursor.failed) :
    connPushByte lookup now c b = { c with reasm := st2 } := by
  rw [connPushByte, if_neg hlife]
  simp only [hpush]
  rw [if_neg hnf]

theorem connPushByte_fail (lookup : Nat → Option (List Nat)) (now : Nat)
    (c : Conn) (b : Nat) (st2 : ReasmState)
    (hlife : ¬(c.life = LifeState.closing ∨ c.life = LifeState.closed))
    (hpush : pushByte c.reasm b = (none, st2))
    (hf : st2.cursor = ReasmCursor.failed) :
    connPushByte lookup now c b =
      { c with reasm := st2, life := LifeState.closing } := by
  rw [connPushByte, if_neg hlife]
  simp only [hpush]
  rw [if_pos hf]

theorem connPushByte_frame (lookup : Nat → Option (List Nat)) (now : Nat)
    (c : Conn) (b : Nat) (st2 : ReasmState) (f : Frame)
    (hlife : ¬(c.life = LifeState.closing ∨ c.life = LifeState.closed))
    (hpush : pushByte c.reasm b = (some f, st2))
    (hnf : st2.cursor ≠ ReasmCursor.failed) :
    connPushByte lookup now c b =
      handleFrame lookup now { c with reasm := st2 } f := by
  rw [connPushByte, if_neg hlife]
  simp only [hpush]
  rw [if_neg hnf]

theorem pushByte_header_grow (buf : List Nat) (b : Nat)
    (cr : Option AuthCrypt.DirState)
    (hlt : buf.length + 1 < headerSize) :
    pushByte { cursor := ReasmCursor.header buf, recvCrypt := cr } b =
      (none, { cursor := ReasmCursor.header (buf ++ [b]), recvCrypt := cr }) := by
  rw [pushByte]
  simp only []
  rw [if_pos (by simpa using hlt)]

theorem pushByte_header_oversize (b0 b1 b2 b3 b4 b5 : Nat)
    (hbig : maxFrameSize < (FrameCodec.decode [b0, b1, b2, b3, b4, b5]).size) :
    pushByte { cursor := ReasmCursor.header [b0, b1, b2, b3, b4],
               recvCrypt := none } b5 =
      (none, { cursor := ReasmCursor.failed, recvCrypt := none }) := by
  rw [pushByte]
  simp only [maybeDecrypt, List.cons_append, List.nil_append]
  rw [if_neg (by simp [headerSize])]
  rw [if_pos hbig]

/-- C3: a decoded inbound header claiming a payload length above the
configured maximum terminates the connection — the resulting state is the
same fixed failed state whatever the claimed length, so no reassembly storage
proportional to that length is ever set up — and every byte fed afterwards is
ignored. -/
theorem oversized_length_fatal (lookup : Nat → Option (List Nat))
    (now seed : Nat) (hdr : List Nat)
    (hlen : hdr.length = headerSize)
    (hbig : maxFrameSize < (FrameCodec.decode hdr).size) :
    connFeed lookup now (freshConn seed) hdr =
        { freshConn seed with
            life := LifeState.closing,
            reasm := { cursor := ReasmCursor.failed, recvCrypt := none } } ∧
      ∀ more : List Nat,
        connFeed lookup now
            { freshConn seed with
                life := LifeState.closing,
                reasm := { cursor := ReasmCursor.failed, recvCrypt := none } }
            more =
          { freshConn seed with
              life := LifeState.closing,
              reasm := { cursor := ReasmCursor.failed, recvCrypt := none } } := by
  refine ⟨?_, fun more => connFeed_closing lookup now more _ rfl⟩
  match hdr, hbig with
  | [b0, b1, b2, b3, b4, b5], hbig =>
    simp only [connFeed]
    rw [connPushByte_quiet lookup now (freshConn seed) b0
      { cursor := ReasmCursor.header [b0], recvCrypt := none }
      (by simp [freshConn])
      (by simpa using pushByte_header_grow [] b0 none (by simp [headerSize]))
      (by simp)]
    rw [connPushByte_quiet lookup now _ b1
      { cursor := ReasmCursor.header [b0, b1], recvCrypt := none }
      (by simp [freshConn])
      (by simpa using pushByte_header_grow [b0] b1 none (by simp [headerSize]))
      (by simp)]
    rw [connPushByte_quiet lookup now _ b2
      { cursor := ReasmCursor.header [b0, b1, b2], recvCrypt := none }
      (by simp [freshConn])
      (by simpa using pushByte_header_grow [b0, b1] b2 none (by simp [headerSize]))
      (by simp)]
    rw [connPushByte_quiet lookup now _ b3
      { cursor := ReasmCursor.header [b0, b1, b2, b3], recvCrypt := none }
      (by simp [freshConn])
      (by simpa using pushByte_header_grow [b0, b1, b2] b3 none (by simp [headerSize]))
      (by simp)]
    rw [connPushByte_quiet lookup now _ b4
      { cursor := ReasmCursor.header [b0, b1, b2, b3, b4], recvCrypt := none }
      (by simp [freshConn])
      (by simpa using pushByte_header_grow [b0, b1, b2, b3] b4 none (by simp [headerSize]))
      (by simp)]
    rw [connPushByte_fail lookup now _ b5
      { cursor := ReasmCursor.failed, recvCrypt := none }
      (by simp [freshConn])
      (pushByte_header_oversize b0 b1 b2 b3 b4 b5 hbig)
      rfl]

/-- C3 witness: a header claiming 65535 payload bytes (above the 10240
maximum) closes a fresh connection at once, and later bytes are ignored. -/
theorem oversized_length_fatal_witness :
    connFeed (fun _ => none) 0 (freshConn 0) [255, 255, 0, 0, 0, 0] =
        { freshConn 0 with
            life := LifeState.closing,
            reasm := { cursor := ReasmCursor.failed, recvCrypt := none } } ∧
      ∀ more : List Nat,
        connFeed (fun _ => none) 0
            { freshConn 0 with
                life := LifeState.closing,
                reasm := { cursor := ReasmCursor.failed, recvCrypt := none } }
            more =
          { freshConn 0 with
              life := LifeState.closing,
              reasm := { cursor := ReasmCursor.failed, recvCrypt := none } } :=
  oversized_length_fatal (fun _ => none) 0 0 [255, 255, 0, 0, 0, 0]
    (by decide) (by decide)

theorem connFeed_cons (lookup : Nat → Option (List Nat)) (now : Nat)
    (c : Conn) (b : Nat) (bs : List Nat) :
    connFeed lookup now c (b :: bs) =
      connFeed lookup now (connPushByte lookup now c b) bs := rfl

theorem connFeed_append (lookup : Nat → Option (List Nat)) (now : Nat) :
    ∀ (a b : List Nat) (c : Conn),
    connFeed lookup now c (a ++ b) = connFeed lookup now (connFeed lookup now c a) b
  | [], b, c => rfl
  | x :: xs, b, c => by
    simp only [List.cons_append, connFeed]
    exact connFeed_append lookup now xs b _

theorem pushByte_header_body (b0 b1 b2 b3 b4 b5 size cmd : Nat)
    (hdec : FrameCodec.decode [b0, b1, b2, b3, b4, b5] = { size := size, cmd := cmd })
    (hok : size ≤ maxFrameSize) (hpos : size ≠ 0) :
    pushByte { cursor := ReasmCursor.header [b0, b1, b2, b3, b4],
               recvCrypt := none } b5 =
      (none, { cursor := ReasmCursor.body size cmd [], recvCrypt := none }) := by
  rw [pushByte]
  simp only [maybeDecrypt, List.cons_append, List.nil_append, hdec]
  rw [if_neg (by simp [headerSize])]
  rw [if_neg (by omega), if_neg hpos]

theorem pushByte_body_grow (size cmd : Nat) (buf : List Nat) (b : Nat)
    (cr : Option AuthCrypt.DirState) (hlt : buf.length + 1 < size) :
    pushByte { cursor := ReasmCursor.body size cmd buf, recvCrypt := cr } b =
      (none, { cursor := ReasmCursor.body size cmd (buf ++ [b]),
               recvCrypt := cr }) := by
  rw [pushByte]
  simp only []
  rw [if_pos (by simpa using hlt)]

theorem pushByte_body_complete (size cmd : Nat) (buf : List Nat) (b : Nat)
    (cr : Option AuthCrypt.DirState) (hge : ¬(buf.length + 1 < size)) :
    pushByte { cursor := ReasmCursor.body size cmd buf, recvCrypt := cr } b =
      (some { cmd := cmd, payload := buf ++ [b] },
       { cursor := ReasmCursor.header [], recvCrypt := cr }) := by
  rw [pushByte]
  simp only []
  rw [if_neg (by simpa using hge)]

theorem connFeed_header6 (lookup : Nat → Option (List Nat))
    (now seed b0 b1 b2 b3 b4 b5 size cmd : Nat)
    (hdec : FrameCodec.decode [b0, b1, b2, b3, b4, b5] = { size := size, cmd := cmd })
    (hok : size ≤ maxFrameSize) (hpos : size ≠ 0) :
    connFeed lookup now (freshConn seed) [b0, b1, b2, b3, b4, b5] =
      { freshConn seed with
          reasm := { cursor := ReasmCursor.body size cmd [],
                     recvCrypt := none } } := by
  simp only [connFeed]
  rw [connPushByte_quiet lookup now (freshConn seed) b0
    { cursor := ReasmCursor.header [b0], recvCrypt := none }
    (by simp [freshConn])
    (by simpa using pushByte_header_grow [] b0 none (by simp [headerSize]))
    (by simp)]
  rw [connPushByte_quiet lookup now _ b1
    { cursor := ReasmCursor.header [b0, b1], recvCrypt := none }
    (by simp [freshConn])
    (by simpa using pushByte_header_grow [b0] b1 none (by simp [headerSize]))
    (by simp)]
  rw [connPushByte_quiet lookup now _ b2
    { cursor := ReasmCursor.header [b0, b1, b2], recvCrypt := none }
    (by simp [freshConn])
    (by simpa using pushByte_header_grow [b0, b1] b2 none (by simp [headerSize]))
    (by simp)]
  rw [connPushByte_quiet lookup now _ b3
    { cursor := ReasmCursor.header [b0, b1, b2, b3], recvCrypt := none }
    (by simp [freshConn])
    (by simpa using pushByte_header_grow [b0, b1, b2] b3 none (by simp [headerSize]))
    (by simp)]
  rw [connPushByte_quiet lookup now _ b4
    { cursor := ReasmCursor.header [b0, b1, b2, b3, b4], recvCrypt := none }
    (by simp [freshConn])
    (by simpa using pushByte_header_grow [b0, b1, b2, b3] b4 none (by simp [headerSize]))
    (by simp)]
  rw [connPushByte_quiet lookup now _ b5
    { cursor := ReasmCursor.body size cmd [], recvCrypt := none }
    (by simp [freshConn])
    (pushByte_header_body b0 b1 b2 b3 b4 b5 size cmd hdec hok hpos)
    (by simp)]

theorem connFeed_body (lookup : Nat → Option (List Nat)) (now : Nat) :
    ∀ (rest acc : List Nat) (c : Conn) (size cmd : Nat)
    (cr : Option AuthCrypt.DirState),
    ¬(c.life = LifeState.closing ∨ c.life = LifeState.closed) →
    c.reasm = { cursor := ReasmCursor.body size cmd acc, recvCrypt := cr } →
    acc.length + rest.length = size → rest ≠ [] →
    connFeed lookup now c rest =
      handleFrame lookup now
        { c with reasm := { cursor := ReasmCursor.header [], recvCrypt := cr } }
        { cmd := cmd, payload := acc ++ rest }
  | [], _, _, _, _, _, _, _, _, hne => absurd rfl hne
  | [x], acc, c, size, cmd, cr, hlife, hreasm, hcnt, _ => by
    simp only [connFeed]
    rw [connPushByte_frame lookup now c x
      { cursor := ReasmCursor.header [], recvCrypt := cr }
      { cmd := cmd, payload := acc ++ [x] }
      hlife
      (by rw [hreasm]
          exact pushByte_body_complete size cmd acc x cr
            (by simp at hcnt; omega))
      (by simp)]
  | x :: y :: rest2, acc, c, size, cmd, cr, hlife, hreasm, hcnt, _ => by
    rw [connFeed_cons]
    rw [connPushByte_quiet lookup now c x
      { cursor := ReasmCursor.body size cmd (acc ++ [x]), recvCrypt := cr }
      hlife
      (by rw [hreasm]
          exact pushByte_body_grow size cmd acc x cr
            (by simp at hcnt; omega))
      (by simp)]
    rw [connFeed_body lookup now (y :: rest2) (acc ++ [x]) _ size cmd cr
      (by simpa using hlife) rfl
      (by simp at hcnt ⊢
          omega)
      (by simp)]
    have hpl : (acc ++ [x]) ++ (y :: rest2) = acc ++ (x :: y :: rest2) := by
      simp
    rw [hpl]

theorem connFeed_encodeHeader (lookup : Nat → Option (List Nat))
    (now seed size cmd : Nat)
    (hok : size ≤ maxFrameSize) (hpos : size ≠ 0)
    (hsz : size < 65536) (hcm : cmd < 4294967296) :
    connFeed lookup now (freshConn seed)
        (FrameCodec.encodeHeader { size := size, cmd := cmd }) =
      { freshConn seed with
          reasm := { cursor := ReasmCursor.body size cmd [],
                     recvCrypt := none } } := by
  have hdec := FrameCodec.decode_encodeHeader size cmd hsz hcm
  rw [FrameCodec.encodeHeader] at hdec ⊢
  exact connFeed_header6 lookup now seed _ _ _ _ _ _ size cmd hdec hok hpos

/-- C8: a handshake frame carrying an unknown identity, or a proof that does
not match the stored shared secret, moves the connection from `Anonymous`
straight to `Closing`, and from then on any bytes fed to the connection are
ignored — never parsed into frames or dispatched. -/
theorem bad_handshake_closes (lookup : Nat → Option (List Nat))
    (now seed : Nat) (payload : List Nat)
    (hne : payload ≠ [])
    (hlen : payload.length ≤ maxFrameSize)
    (hbad : authOk lookup payload = false) :
    connFeed lookup now (freshConn seed)
        (FrameCodec.encode CMSG_AUTH_SESSION payload) =
        { freshConn seed with life := LifeState.closing } ∧
      ∀ more : List Nat,
        connFeed lookup now { freshConn seed with life := LifeState.closing }
            more =
          { freshConn seed with life := LifeState.closing } := by
  refine ⟨?_, fun more => connFeed_closing lookup now more _ rfl⟩
  have hnz : payload.length ≠ 0 := fun h => hne (List.length_eq_zero.mp h)
  rw [FrameCodec.encode, connFeed_append]
  rw [connFeed_encodeHeader lookup now seed payload.length CMSG_AUTH_SESSION
    hlen hnz (by simp only [maxFrameSize] at hlen; omega)
    (by norm_num [CMSG_AUTH_SESSION])]
  rw [connFeed_body lookup now payload [] _ payload.length CMSG_AUTH_SESSION
    none (by simp [freshConn]) rfl (by simp) hne]
  simp only [List.nil_append]
  show handleFrame lookup now (freshConn seed)
      { cmd := CMSG_AUTH_SESSION, payload := payload } =
    { freshConn seed with life := LifeState.closing }
  simp only [handleFrame, freshConn]
  rw [if_pos trivial]
  cases hl : lookup (identityOf payload) with
  | none =>
    simp only [HandleAuthSession, hl]
  | some secret =>
    have hb2 : (proofOf payload == secret) = false := by
      simp only [authOk, hl] at hbad
      exact hbad
    simp only [HandleAuthSession, hl, hb2, Bool.false_eq_true, if_false]

/-- C8 witness: a handshake with identity byte 0 against an empty session-key
store closes a fresh connection, and all later bytes are ignored. -/
theorem bad_handshake_closes_witness :
    connFeed (fun _ => none) 0 (freshConn 0)
        (FrameCodec.encode CMSG_AUTH_SESSION [0]) =
        { freshConn 0 with life := LifeState.closing } ∧
      ∀ more : List Nat,
        connFeed (fun _ => none) 0
            { freshConn 0 with life := LifeState.closing } more =
          { freshConn 0 with life := LifeState.closing } :=
  bad_handshake_closes (fun _ => none) 0 0 [0] (by decide) (by decide)
    (by decide)
